import Mathlib

/-!
Verification of the Memory Matching Game Engine
(`language/memory_game_engine.js`, shared shuffle also in `common/utils/array.js`)
against its natural-language specification.

The engine is shallowly embedded: `Math.random()`-driven choices are modelled
by explicit draw functions (`Nat → Nat`, reduced modulo the live range exactly
as `Math.floor(Math.random() * (i + 1))` lands in `[0, i]`), the global mutable
engine object becomes an explicit `GameState` record, and DOM events / timer
expirations become an explicit event step function.
-/

namespace MemoryEngine

/-! ## Fisher–Yates shuffle

`shuffleArray(array)` from `common/utils/array.js` (the same loop appears as
`MemoryGame.shuffleArray` in `language/memory_game_engine.js`):

    for (let i = array.length - 1; i > 0; i--) {
        const j = Math.floor(Math.random() * (i + 1));
        [array[i], array[j]] = [array[j], array[i]];
    }

The random source is modelled by `g : Nat → Nat`; the draw at loop index `i`
is `g i % (i + 1)`, which ranges over exactly the values `Math.floor(Math.random()*(i+1))`
can take. -/

/-- Swap the elements at positions `i` and `j`; out-of-range indices leave the
list unchanged (the JS loop only ever uses in-range indices). -/
def swapAt (l : List α) (i j : Nat) : List α :=
  match l[i]?, l[j]? with
  | some a, some b => (l.set i b).set j a
  | _, _ => l

/-- The shuffle loop body, iterated from index `i` down to `1`. -/
def fyAux (g : Nat → Nat) : Nat → List α → List α
  | 0, l => l
  | i + 1, l => fyAux g i (swapAt l (i + 1) (g (i + 1) % (i + 2)))

/-- In-place Fisher–Yates shuffle, with the random draws supplied by `g`. -/
def shuffleArray (g : Nat → Nat) (l : List α) : List α :=
  fyAux g (l.length - 1) l


/-! ## Game data preparation (`prepareGameData`)

The raw JSON object has either a `pairs` field (a list of `{term1, term2}`
records, modelled as `String × String`) or an `entries` field (each entry
contributing its `alternatives` word list). A missing / null field is `none`;
note that in JS an *empty* array is still truthy, hence `some []` takes the
corresponding branch, exactly like the source's `if (jsonData.pairs)`.

Randomness: `g c` is the draw function of the `c`-th `shuffleArray` call made
while preparing (call `0` shuffles the entry list, call `i + 1` shuffles the
alternatives of the `i`-th selected entry when it has more than 2). -/

structure JsonData where
  pairs : Option (List (String × String))
  entries : Option (List (List String))
deriving DecidableEq

/-- Format detection: `jsonData.pairs` wins, then `jsonData.entries`, else the
unknown-format branch (modelled as `none`). -/
def extractEntries (j : JsonData) : Option (List (List String)) :=
  match j.pairs with
  | some ps => some (ps.map fun p => [p.1, p.2])
  | none => j.entries

/-- One loop body of `selectedEntries.forEach`: an entry of length 2 is the
pair; more than 2 alternatives are shuffled (on a copy) and the first 2 taken;
anything else leaves `pair = []` and is skipped by the `pair.length === 2`
check in the caller. -/
def entryToPair (g : Nat → Nat) (entry : List String) : List String :=
  if entry.length = 2 then entry
  else if 2 < entry.length then (shuffleArray g entry).take 2
  else []

/-- The `selectedEntries.forEach((entry, index) => …)` loop: push each
produced 2-element pair, skip the rest. `i` is the running `forEach` index. -/
def processEntries (g : Nat → Nat → Nat) : Nat → List (List String) → List (String × String)
  | _, [] => []
  | i, e :: rest =>
    match entryToPair (g (i + 1)) e with
    | [a, b] => (a, b) :: processEntries g (i + 1) rest
    | _ => processEntries g (i + 1) rest

/-- Field `MemoryGame.totalPairs` as initialised in the source. -/
def totalPairsDefault : Nat := 10

/-- Source `prepareGameData(jsonData)`: detect the format, shuffle all entries in
place, keep the first `Math.min(totalPairs, allEntries.length)`, then build the
pairs. The unknown-format branch logs and returns `[]`. -/
def prepareGameData (g : Nat → Nat → Nat) (totalPairs : Nat) (j : JsonData) :
    List (String × String) :=
  match extractEntries j with
  | none => []
  | some allEntries =>
    let shuffled := shuffleArray (g 0) allEntries
    let selected := shuffled.take (min totalPairs shuffled.length)
    processEntries g 0 selected

/-- The bidirectional `synonymPairs` mapping: for each pair, the source stores
`synonymPairs[pair[0]] = pair[1]` then `synonymPairs[pair[1]] = pair[0]`; a
later assignment to the same key overwrites an earlier one. The JS object is
modelled as an association list where the most recent binding is found first
(`List.lookup`). The same loop runs inside `prepareGameData` and again in
`setupGameBoard` after `resetGameState` clears the mapping. -/
def buildIndex (ps : List (String × String)) : List (String × String) :=
  ps.foldl (fun m p => (p.2, p.1) :: (p.1, p.2) :: m) []

/-- Function `buildIndex` with an explicit accumulator, for reasoning by induction. -/
def buildAux (m ps : List (String × String)) : List (String × String) :=
  ps.foldl (fun m p => (p.2, p.1) :: (p.1, p.2) :: m) m

/-- Number of entries the dataset offers (before any selection/filtering). -/
def availableEntries (j : JsonData) : Nat :=
  ((extractEntries j).getD []).length

/-- Number of entries that can actually yield a pair (length exactly 2, or
more than 2 alternatives to pick from). -/
def validEntryCount (j : JsonData) : Nat :=
  ((extractEntries j).getD []).countP fun e => decide (e.length = 2) || decide (2 < e.length)

/-! Draw functions used by the concrete witnesses: `idDraw i % (i + 1) = i`,
so every shuffle becomes the identity permutation and the runs below are fully
deterministic. -/

def idDraw : Nat → Nat := fun i => i

def idDraws : Nat → Nat → Nat := fun _ => idDraw

/-! ## The turn state machine

The global `MemoryGame` object's mutable fields become a `GameState` record.
A card DOM element is a `Tile` (its `data-word` plus the `flipped` / `matched`
CSS classes, which are exactly what the click guard tests); `firstCard` /
`secondCard` hold board positions instead of element references. The two
`setTimeout` callbacks are modelled by pending flags plus explicit
timer-expiration events: `unflipPending` corresponds to a live
`unflipTimeoutId` (stored, and cleared by `resetGameState`), while
`winPending` corresponds to the anonymous 800 ms win-announcement timeout,
whose handle the source never stores. `statusDisplay` is the text of the
`#game-status` element. The dead `resetColorTimeoutId` field (cleared in
`resetGameState` but never set anywhere) has no observable effect and is not
modelled. -/

structure Tile where
  word : String
  flipped : Bool
  matched : Bool
deriving DecidableEq

structure GameState where
  board : List Tile
  firstCard : Option Nat
  secondCard : Option Nat
  lockBoard : Bool
  pairsFound : Nat
  totalPairs : Nat
  synonymPairs : List (String × String)
  unflipPending : Bool
  winPending : Bool
  statusDisplay : String
deriving DecidableEq

/-- Source `updateStatus`: the text written to `#game-status`. -/
def statusText (found total : Nat) : String :=
  "נמצאו " ++ toString found ++ " מתוך " ++ toString total ++ " זוגות"

/-- Source `showWinMessage`: the text written to `#game-status`. -/
def winText : String := "🎉 כל הכבוד! ניצחת! 🎉"

/-- The `showError` message used by `init` when no valid data is found. -/
def errorText : String := "שגיאה בטעינת המשחק. נסה שוב."

/-- Source `renderCards`: one card per word, initially face-down and unmatched. -/
def mkTiles (ws : List String) : List Tile :=
  ws.map fun w => { word := w, flipped := false, matched := false }

/-- The `gameWords` array: pairs flattened in order (`pair[0]`, `pair[1]`). -/
def flattenPairs (ps : List (String × String)) : List String :=
  ps.flatMap fun p => [p.1, p.2]

/-- Source `resetGameState`: clears the stored `unflipTimeoutId` (and the never-set
`resetColorTimeoutId`) and zeroes the turn fields. The win-announcement
timeout has no stored handle, so `winPending` is untouched. -/
def resetGameState (s : GameState) : GameState :=
  { s with unflipPending := false, firstCard := none, secondCard := none,
           lockBoard := false, pairsFound := 0, synonymPairs := [] }

/-- Source `setupGameBoard(gamePairs)`: reset the state, repopulate `synonymPairs`
from the same pairs, flatten, shuffle the words (draws `gw`), render the new
board, and update the status line. -/
def setupGameBoard (s : GameState) (gw : Nat → Nat) (gamePairs : List (String × String)) :
    GameState :=
  let s1 := resetGameState s
  let s2 := { s1 with synonymPairs := buildIndex gamePairs }
  let gameWords := flattenPairs gamePairs
  { s2 with board := mkTiles (shuffleArray gw gameWords),
            statusDisplay := statusText s2.pairsFound s2.totalPairs }

/-- Source `resetTurn`: clear the selected cards and unlock the board. -/
def resetTurn (s : GameState) : GameState :=
  { s with firstCard := none, secondCard := none, lockBoard := false }

/-- Add the `matched` CSS class to the card at position `k`. -/
def setTileMatched (b : List Tile) (k : Nat) : List Tile :=
  match b[k]? with
  | some t => b.set k { t with matched := true }
  | none => b

/-- Set / remove the `flipped` CSS class of the card at position `k`. -/
def setTileFlipped (b : List Tile) (k : Nat) (v : Bool) : List Tile :=
  match b[k]? with
  | some t => b.set k { t with flipped := v }
  | none => b

def setTileFlippedOpt (b : List Tile) (o : Option Nat) (v : Bool) : List Tile :=
  match o with
  | some k => setTileFlipped b k v
  | none => b

/-- Source `handleMatch()`: play the success sound (external), mark both cards
matched (they keep `flipped`), bump the score, update the status, schedule the
win announcement when the target is reached, and reset the turn. -/
def handleMatch (s : GameState) (f i : Nat) : GameState :=
  let board1 := setTileMatched (setTileMatched s.board f) i
  let pf := s.pairsFound + 1
  let winP := if pf = s.totalPairs then true else s.winPending
  resetTurn { s with board := board1, pairsFound := pf,
                     statusDisplay := statusText pf s.totalPairs, winPending := winP }

/-- Source `handleMismatch()`: just starts the 1200 ms flip-back timeout and stores
its handle in `unflipTimeoutId`; everything else happens when it fires. -/
def handleMismatch (s : GameState) : GameState :=
  { s with unflipPending := true }

/-- The word on the card at position `k` (`card.dataset.word`). -/
def tileWord (s : GameState) (k : Nat) : String :=
  ((s.board[k]?).map Tile.word).getD ""

/-- Source `checkForMatch()`: `this.synonymPairs[word1] === word2`; an absent key
gives `undefined`, which is `===`-unequal to any string, i.e. a mismatch. -/
def checkForMatch (s : GameState) (f i : Nat) : GameState :=
  if s.synonymPairs.lookup (tileWord s f) = some (tileWord s i) then
    handleMatch s f i
  else
    handleMismatch s

/-- Source `handleCardClick(card)` for the card at position `i`. -/
def handleCardClick (s : GameState) (i : Nat) : GameState :=
  match s.board[i]? with
  | none => s
  | some card =>
    if s.lockBoard || card.flipped || card.matched then s
    else
      let s1 := { s with board := s.board.set i { card with flipped := true } }
      match s.firstCard with
      | none => { s1 with firstCard := some i }
      | some f =>
        if f = i then s1
        else checkForMatch { s1 with secondCard := some i, lockBoard := true } f i

/-- The body of the mismatch `setTimeout` callback: it reads `this.firstCard`
and `this.secondCard` *at firing time*, unflips them, and resets the turn. A
cancelled timer never fires, which the `unflipPending` guard models. (When the
timer is live, the selected cards are provably non-null, see the reachability
invariant; on a null card the JS body would throw.) -/
def fireUnflip (s : GameState) : GameState :=
  if s.unflipPending then
    let b1 := setTileFlippedOpt s.board s.firstCard false
    let b2 := setTileFlippedOpt b1 s.secondCard false
    resetTurn { s with board := b2, unflipPending := false }
  else s

/-- The win-announcement `setTimeout` callback (`showWinMessage` after
800 ms): rewrites the status line. Its handle is never stored, so nothing
ever cancels it; firing consumes the pending flag. -/
def fireWin (s : GameState) : GameState :=
  if s.winPending then { s with winPending := false, statusDisplay := winText } else s

/-- Outcome of `init(filePath)` after the JSON is parsed. -/
inductive InitOutcome where
  | boardBuilt (s : GameState)
  | loadFailure (msg : String)
deriving DecidableEq

/-- Source `init`: prepare the data; zero pairs throws (`'No valid data found in the
file'`), which the catch turns into the user-facing `showError` alert, and no
board is built. Otherwise `setupGameBoard` runs. -/
def initFlow (s : GameState) (j : JsonData) (g : Nat → Nat → Nat) (gw : Nat → Nat) :
    InitOutcome :=
  let gamePairs := prepareGameData g s.totalPairs j
  if gamePairs = [] then .loadFailure errorText
  else .boardBuilt (setupGameBoard s gw gamePairs)

/-- Source `resetGame` (the "new game" button): re-runs `init` on the current file;
on failure the alert is shown and the engine state is untouched. -/
def resetGame (s : GameState) (j : JsonData) (g : Nat → Nat → Nat) (gw : Nat → Nat) :
    GameState :=
  match initFlow s j g gw with
  | .boardBuilt s' => s'
  | .loadFailure _ => s

/-- The engine object's fields before any game ran (the status text is the
initial container markup `נמצאו 0 מתוך …`). -/
def blankState (tp : Nat) : GameState :=
  { board := [], firstCard := none, secondCard := none, lockBoard := false,
    pairsFound := 0, totalPairs := tp, synonymPairs := [],
    unflipPending := false, winPending := false, statusDisplay := statusText 0 tp }

/-- A first `init` on a fresh engine. -/
def initGame (tp : Nat) (j : JsonData) (g : Nat → Nat → Nat) (gw : Nat → Nat) : GameState :=
  resetGame (blankState tp) j g gw

/-- The events the host delivers between which state is observed: card clicks,
the two timer expirations, and the reset button (which re-fetches the dataset
`j` and redraws randomness). -/
inductive Event where
  | click (i : Nat)
  | unflipFire
  | winFire
  | reset (j : JsonData) (g : Nat → Nat → Nat) (gw : Nat → Nat)

def step (s : GameState) : Event → GameState
  | .click i => handleCardClick s i
  | .unflipFire => fireUnflip s
  | .winFire => fireWin s
  | .reset j g gw => resetGame s j g gw

/-- States reachable by any sequence of clicks, timer expirations and resets
from a fresh engine's first `init`. -/
inductive Reachable (tp : Nat) : GameState → Prop where
  | init (j : JsonData) (g : Nat → Nat → Nat) (gw : Nat → Nat) :
      Reachable tp (initGame tp j g gw)
  | step (s : GameState) (e : Event) : Reachable tp s → Reachable tp (step s e)

/-- Events of a single game session (no reset, which would rebuild the board
from a fresh prepare). -/
def sessionEvent : Event → Prop
  | .reset _ _ _ => False
  | _ => True

/-- States of one game session: reachable from `s0` without resets. -/
inductive SessionReach (s0 : GameState) : GameState → Prop where
  | refl : SessionReach s0 s0
  | step (s : GameState) (e : Event) :
      SessionReach s0 s → sessionEvent e → SessionReach s0 (step s e)

/-- Number of currently selected tiles. -/
def numSelected (s : GameState) : Nat :=
  (if s.firstCard.isSome then 1 else 0) + (if s.secondCard.isSome then 1 else 0)

/-- A selected board position: it holds a face-up, not-yet-matched card. -/
def TileSel (s : GameState) (k : Nat) : Prop :=
  ∃ t, s.board[k]? = some t ∧ t.flipped = true ∧ t.matched = false

/-- The reachability invariant of the turn controller: the board is locked
exactly while two cards are selected, a second selection implies a first, a
live flip-back timer implies a locked board, selected positions hold face-up
unmatched cards, and the two selections are distinct positions. -/
def CoreInv (s : GameState) : Prop :=
  (s.lockBoard = true ↔ (s.firstCard.isSome ∧ s.secondCard.isSome)) ∧
  (s.secondCard.isSome → s.firstCard.isSome) ∧
  (s.unflipPending = true → s.lockBoard = true) ∧
  (∀ k, s.firstCard = some k → TileSel s k) ∧
  (∀ k, s.secondCard = some k → TileSel s k) ∧
  (∀ a b, s.firstCard = some a → s.secondCard = some b → a ≠ b)

/-- Number of cards carrying the `matched` class. -/
def matchedCount (b : List Tile) : Nat := b.countP fun t => t.matched

/-- Full invariant: the turn-controller invariant plus score bookkeeping
(each found pair accounts for exactly two matched cards). -/
def Inv (s : GameState) : Prop :=
  CoreInv s ∧ matchedCount s.board = 2 * s.pairsFound

/-! Concrete inputs used by the claim witnesses and counterexamples. -/

def jPairsAB : JsonData := ⟨some [("a", "b")], none⟩

def jPairsTwo : JsonData := ⟨some [("a", "b"), ("c", "d")], none⟩

def jPairsThree : JsonData := ⟨some [("a", "b"), ("c", "d"), ("e", "f")], none⟩

def jSharedWord : JsonData := ⟨some [("a", "b"), ("b", "c")], none⟩

def jShortAlt : JsonData := ⟨none, some [["a"], ["b", "c"]]⟩

def jDupPair : JsonData := ⟨some [("a", "a"), ("a", "a")], none⟩

def jMalformed : JsonData := ⟨none, none⟩

def jEmptyPairs : JsonData := ⟨some [], none⟩

/-- Words of one pair never meet the words of another pair. -/
def PairDisjoint (p q : String × String) : Prop :=
  p.1 ≠ q.1 ∧ p.1 ≠ q.2 ∧ p.2 ≠ q.1 ∧ p.2 ≠ q.2

instance decPairDisjoint : DecidableRel PairDisjoint := fun p q => by
  unfold PairDisjoint
  infer_instance

/-- Result type the spec assigns to `prepare`: either a pair set or a
distinct data-format failure. -/
inductive PrepResult where
  | ok (ps : List (String × String))
  | dataFormatError
deriving DecidableEq

/-- Follows the spec's words (§4.1, §7): a dataset matching neither known
shape makes `prepare` fail with a `DataFormatError`; otherwise it succeeds
with the selected pair set. This is the refinement comparison point, not the
source behaviour. -/
def specPrepareResult (g : Nat → Nat → Nat) (tp : Nat) (j : JsonData) : PrepResult :=
  match extractEntries j with
  | none => .dataFormatError
  | some _ => .ok (prepareGameData g tp j)

/-- What the source actually produces: `prepareGameData` always returns
normally (the unknown-format branch logs to the console and returns `[]`). -/
def codePrepareResult (g : Nat → Nat → Nat) (tp : Nat) (j : JsonData) : PrepResult :=
  .ok (prepareGameData g tp j)

/-- One match then a reset while the 800 ms win announcement is pending:
play the single pair of `jPairsAB` (cards land at positions 0, 1 under the
identity draws), then press "new game" before the timeout elapses. -/
def winResetMid : GameState :=
  step (step (step (initGame 1 jPairsAB idDraws idDraw) (.click 0)) (.click 1))
    (.reset jPairsAB idDraws idDraw)

/-- A reachable state with a face-up card at position 0. -/
def flippedOneState : GameState :=
  step (initGame 10 jPairsTwo idDraws idDraw) (.click 0)

/-! ## Shuffle lemmas -/

theorem length_set_set (l : List α) (i j : Nat) (a b : α) :
    ((l.set i b).set j a).length = l.length := by
  simp

theorem swapAt_length (l : List α) (i j : Nat) : (swapAt l i j).length = l.length := by
  unfold swapAt
  split
  · simp
  · rfl

theorem fyAux_length (g : Nat → Nat) (n : Nat) (l : List α) :
    (fyAux g n l).length = l.length := by
  induction n generalizing l with
  | zero => rfl
  | succ i ih => rw [fyAux, ih, swapAt_length]

theorem shuffleArray_length (g : Nat → Nat) (l : List α) :
    (shuffleArray g l).length = l.length := fyAux_length g _ l

/-- Moving the `k`-th element to the front while writing `x` into its slot is a
permutation of putting `x` on the front. -/
theorem perm_getElem_cons_set (t : List α) (k : Nat) (hk : k < t.length) (x : α) :
    (t[k] :: t.set k x).Perm (x :: t) := by
  induction t generalizing k with
  | nil => simp at hk
  | cons a t ih =>
    cases k with
    | zero => simpa using List.Perm.swap x a t
    | succ k =>
      have hk' : k < t.length := by simpa using hk
      have h1 : (a :: t)[k + 1] :: (a :: t).set (k + 1) x = t[k] :: a :: t.set k x := by simp
      have h2 : (t[k] :: a :: t.set k x).Perm (a :: t[k] :: t.set k x) :=
        List.Perm.swap a (t[k]) (t.set k x)
      have h3 : (a :: t[k] :: t.set k x).Perm (a :: x :: t) := (ih k hk').cons a
      have h4 : (a :: x :: t).Perm (x :: a :: t) := List.Perm.swap x a t
      rw [h1]
      exact (h2.trans h3).trans h4

theorem set_set_perm (l : List α) (i j : Nat) (hi : i < l.length) (hj : j < l.length) :
    ((l.set i l[j]).set j l[i]).Perm l := by
  induction l generalizing i j with
  | nil => simp at hi
  | cons x t ih =>
    cases i with
    | zero =>
      cases j with
      | zero => simp
      | succ j =>
        have hj' : j < t.length := by simpa using hj
        simpa using perm_getElem_cons_set t j hj' x
    | succ i =>
      cases j with
      | zero =>
        have hi' : i < t.length := by simpa using hi
        simpa using perm_getElem_cons_set t i hi' x
      | succ j =>
        have hi' : i < t.length := by simpa using hi
        have hj' : j < t.length := by simpa using hj
        simpa using (ih i j hi' hj').cons x

theorem swapAt_perm (l : List α) (i j : Nat) : (swapAt l i j).Perm l := by
  unfold swapAt
  split
  · next a b hga hgb =>
    have hi : i < l.length := by
      by_contra h
      rw [List.getElem?_eq_none (Nat.le_of_not_lt h)] at hga
      exact Option.noConfusion hga
    have hj : j < l.length := by
      by_contra h
      rw [List.getElem?_eq_none (Nat.le_of_not_lt h)] at hgb
      exact Option.noConfusion hgb
    have ha : l[i] = a := by
      have := List.getElem?_eq_getElem hi
      rw [this] at hga
      exact (Option.some.injEq _ _).mp hga
    have hb : l[j] = b := by
      have := List.getElem?_eq_getElem hj
      rw [this] at hgb
      exact (Option.some.injEq _ _).mp hgb
    rw [← ha, ← hb]
    exact set_set_perm l i j hi hj
  · exact List.Perm.refl l

theorem fyAux_perm (g : Nat → Nat) (n : Nat) (l : List α) : (fyAux g n l).Perm l := by
  induction n generalizing l with
  | zero => exact List.Perm.refl l
  | succ i ih =>
    rw [fyAux]
    exact (ih _).trans (swapAt_perm l (i + 1) (g (i + 1) % (i + 2)))

theorem shuffleArray_perm (g : Nat → Nat) (l : List α) : (shuffleArray g l).Perm l :=
  fyAux_perm g _ l

/-! ## Board bookkeeping lemmas -/

theorem getElem_of_getElem? {b : List Tile} {k : Nat} {t : Tile} (hb : b[k]? = some t) :
    ∃ hk : k < b.length, b[k] = t := by
  have hk : k < b.length := by
    by_contra h
    rw [List.getElem?_eq_none (Nat.le_of_not_lt h)] at hb
    exact Option.noConfusion hb
  refine ⟨hk, ?_⟩
  rw [List.getElem?_eq_getElem hk] at hb
  exact (Option.some.injEq _ _).mp hb

theorem matchedCount_set_same {b : List Tile} {k : Nat} {t t' : Tile}
    (hb : b[k]? = some t) (hm : t'.matched = t.matched) :
    matchedCount (b.set k t') = matchedCount b := by
  obtain ⟨hk, hbe⟩ := getElem_of_getElem? hb
  unfold matchedCount
  rw [List.countP_set _ _ _ _ hk, hbe, hm]
  have hle := List.boole_getElem_le_countP (fun t => t.matched) b k hk
  rw [hbe] at hle
  omega

theorem matchedCount_set_flip {b : List Tile} {k : Nat} {card : Tile}
    (hb : b[k]? = some card) (v : Bool) :
    matchedCount (b.set k { card with flipped := v }) = matchedCount b :=
  matchedCount_set_same hb rfl

theorem setTileMatched_eq_set {b : List Tile} {k : Nat} {t : Tile} (hb : b[k]? = some t) :
    setTileMatched b k = b.set k { t with matched := true } := by
  unfold setTileMatched
  rw [hb]

theorem setTileFlipped_eq_set {b : List Tile} {k : Nat} {t : Tile} (hb : b[k]? = some t)
    (v : Bool) :
    setTileFlipped b k v = b.set k { t with flipped := v } := by
  unfold setTileFlipped
  rw [hb]

theorem matchedCount_set_matched {b : List Tile} {k : Nat} {t : Tile}
    (hb : b[k]? = some t) (hm : t.matched = false) :
    matchedCount (b.set k { t with matched := true }) = matchedCount b + 1 := by
  obtain ⟨hk, hbe⟩ := getElem_of_getElem? hb
  unfold matchedCount
  rw [List.countP_set _ _ _ _ hk, hbe, hm]
  simp

theorem matchedCount_le_length (b : List Tile) : matchedCount b ≤ b.length :=
  List.countP_le_length _

theorem setTileFlipped_length (b : List Tile) (k : Nat) (v : Bool) :
    (setTileFlipped b k v).length = b.length := by
  unfold setTileFlipped
  split <;> simp

theorem setTileFlippedOpt_length (b : List Tile) (o : Option Nat) (v : Bool) :
    (setTileFlippedOpt b o v).length = b.length := by
  unfold setTileFlippedOpt
  split
  · exact setTileFlipped_length ..
  · rfl

theorem setTileMatched_length (b : List Tile) (k : Nat) :
    (setTileMatched b k).length = b.length := by
  unfold setTileMatched
  split <;> simp

theorem matchedCount_setTileFlipped (b : List Tile) (k : Nat) (v : Bool) :
    matchedCount (setTileFlipped b k v) = matchedCount b := by
  unfold setTileFlipped
  split
  · next t hb => exact matchedCount_set_same hb rfl
  · rfl

theorem matchedCount_setTileFlippedOpt (b : List Tile) (o : Option Nat) (v : Bool) :
    matchedCount (setTileFlippedOpt b o v) = matchedCount b := by
  unfold setTileFlippedOpt
  split
  · exact matchedCount_setTileFlipped ..
  · rfl

theorem matchedCount_mkTiles (ws : List String) : matchedCount (mkTiles ws) = 0 := by
  unfold matchedCount mkTiles
  induction ws with
  | nil => rfl
  | cons w ws ih => simp [List.countP_cons, ih]

theorem mkTiles_length (ws : List String) : (mkTiles ws).length = ws.length := by
  unfold mkTiles
  simp

theorem flattenPairs_length (ps : List (String × String)) :
    (flattenPairs ps).length = 2 * ps.length := by
  unfold flattenPairs
  induction ps with
  | nil => rfl
  | cons p ps ih => simp [List.flatMap_cons, ih] ; omega

/-! ## Invariant preservation -/

theorem handleCardClick_effects (s : GameState) (i : Nat) (h : Inv s) :
    Inv (handleCardClick s i) ∧
    (handleCardClick s i).board.length = s.board.length ∧
    (handleCardClick s i).totalPairs = s.totalPairs ∧
    ((handleCardClick s i).winPending = true →
      s.winPending = true ∨ (handleCardClick s i).pairsFound = s.totalPairs) := by
  obtain ⟨⟨hIff, hSF, hUP, hT1, hT2, hNE⟩, hScore⟩ := h
  cases hbi : s.board[i]? with
  | none =>
    have hred : handleCardClick s i = s := by
      simp [handleCardClick, hbi]
    rw [hred]
    exact ⟨⟨⟨hIff, hSF, hUP, hT1, hT2, hNE⟩, hScore⟩, rfl, rfl, fun hw => Or.inl hw⟩
  | some card =>
    cases hg : (s.lockBoard || card.flipped || card.matched) with
    | true =>
      have hred : handleCardClick s i = s := by
        simp only [handleCardClick, hbi]
        rw [if_pos hg]
      rw [hred]
      exact ⟨⟨⟨hIff, hSF, hUP, hT1, hT2, hNE⟩, hScore⟩, rfl, rfl, fun hw => Or.inl hw⟩
    | false =>
      rw [Bool.or_eq_false_iff, Bool.or_eq_false_iff] at hg
      obtain ⟨⟨hl, hcf⟩, hcm⟩ := hg
      have hi : i < s.board.length := (getElem_of_getElem? hbi).1
      have hUPf : s.unflipPending = false := by
        cases hup : s.unflipPending with
        | false => rfl
        | true => rw [hUP hup] at hl ; exact Bool.noConfusion hl
      cases hf : s.firstCard with
      | none =>
        have hs2 : s.secondCard = none := by
          cases hsc : s.secondCard with
          | none => rfl
          | some b =>
            have h1 : s.firstCard.isSome = true := hSF (by rw [hsc] ; rfl)
            rw [hf] at h1
            simp at h1
        have hred : handleCardClick s i =
            { s with board := s.board.set i { card with flipped := true },
                     firstCard := some i } := by
          simp [handleCardClick, hbi, hl, hcf, hcm, hf]
        rw [hred]
        refine ⟨⟨⟨?_, ?_, ?_, ?_, ?_, ?_⟩, ?_⟩, ?_, ?_, ?_⟩
        · simp [hl, hs2]
        · intro _ ; rfl
        · intro hup ; rw [hUPf] at hup ; exact Bool.noConfusion hup
        · intro k hk
          have hk' : i = k := Option.some.inj hk
          subst hk'
          exact ⟨{ card with flipped := true },
            by simpa using List.getElem?_set_self hi, rfl, hcm⟩
        · intro k hk ; rw [hs2] at hk ; exact Option.noConfusion hk
        · intro a b _ hb ; rw [hs2] at hb ; exact Option.noConfusion hb
        · show matchedCount (s.board.set i { card with flipped := true }) = 2 * s.pairsFound
          rw [matchedCount_set_flip hbi true] ; exact hScore
        · simp
        · rfl
        · exact fun hw => Or.inl hw
      | some f =>
        have hs2 : s.secondCard = none := by
          cases hsc : s.secondCard with
          | none => rfl
          | some b =>
            have h1 : s.lockBoard = true := by
              rw [hIff, hf, hsc] ; exact ⟨rfl, rfl⟩
            rw [h1] at hl ; exact Bool.noConfusion hl
        by_cases hfi : f = i
        · subst hfi
          have hred : handleCardClick s f =
              { s with board := s.board.set f { card with flipped := true } } := by
            simp [handleCardClick, hbi, hl, hcf, hcm, hf]
          rw [hred]
          refine ⟨⟨⟨?_, ?_, ?_, ?_, ?_, ?_⟩, ?_⟩, ?_, ?_, ?_⟩
          · simp [hl, hs2, hf]
          · intro _ ; rw [hf] ; rfl
          · intro hup ; rw [hUPf] at hup ; exact Bool.noConfusion hup
          · intro k hk
            rw [hf] at hk
            have hk' : f = k := Option.some.inj hk
            subst hk'
            exact ⟨{ card with flipped := true },
              by simpa using List.getElem?_set_self hi, rfl, hcm⟩
          · intro k hk ; rw [hs2] at hk ; exact Option.noConfusion hk
          · intro a b _ hb ; rw [hs2] at hb ; exact Option.noConfusion hb
          · show matchedCount (s.board.set f { card with flipped := true }) = 2 * s.pairsFound
            rw [matchedCount_set_flip hbi true] ; exact hScore
          · simp
          · rfl
          · exact fun hw => Or.inl hw
        · have hif : i ≠ f := fun hh => hfi hh.symm
          obtain ⟨tf, htf, htfF, htfM⟩ := hT1 f hf
          have hred : handleCardClick s i =
              checkForMatch
                { s with board := s.board.set i { card with flipped := true },
                         secondCard := some i, lockBoard := true } f i := by
            simp [handleCardClick, hbi, hl, hcf, hcm, hf, hfi]
          rw [hred]
          have hb1f : (s.board.set i { card with flipped := true })[f]? = some tf := by
            rw [List.getElem?_set_ne hif] ; exact htf
          have hb1i : (s.board.set i { card with flipped := true })[i]? =
              some { card with flipped := true } := by
            simpa using List.getElem?_set_self hi
          have hmc1 : matchedCount (s.board.set i { card with flipped := true }) =
              2 * s.pairsFound := by
            rw [matchedCount_set_flip hbi true] ; exact hScore
          unfold checkForMatch
          split
          · -- match branch
            refine ⟨⟨⟨?_, ?_, ?_, ?_, ?_, ?_⟩, ?_⟩, ?_, ?_, ?_⟩
            · simp [handleMatch, resetTurn]
            · simp [handleMatch, resetTurn]
            · intro hup
              simp only [handleMatch, resetTurn] at hup
              rw [hUPf] at hup
              exact Bool.noConfusion hup
            · intro k hk ; simp [handleMatch, resetTurn] at hk
            · intro k hk ; simp [handleMatch, resetTurn] at hk
            · intro a b ha _ ; simp [handleMatch, resetTurn] at ha
            · show matchedCount (setTileMatched (setTileMatched _ f) i) = _
              have hstep1 := setTileMatched_eq_set hb1f
              have hmc2 : matchedCount (setTileMatched
                  (s.board.set i { card with flipped := true }) f) =
                  2 * s.pairsFound + 1 := by
                rw [hstep1, matchedCount_set_matched hb1f htfM, hmc1]
              have hb2i : (setTileMatched
                  (s.board.set i { card with flipped := true }) f)[i]? =
                  some { card with flipped := true } := by
                rw [hstep1, List.getElem?_set_ne (fun hh => hif hh.symm)]
                exact hb1i
              have hstep2 := setTileMatched_eq_set hb2i
              rw [hstep2, matchedCount_set_matched hb2i hcm, hmc2]
              simp [handleMatch, resetTurn]
              omega
            · simp [handleMatch, resetTurn, setTileMatched_length]
            · simp [handleMatch, resetTurn]
            · by_cases hw : s.pairsFound + 1 = s.totalPairs
              · intro _
                refine Or.inr ?_
                simp [handleMatch, resetTurn, hw]
              · intro hwp
                refine Or.inl ?_
                simp only [handleMatch, resetTurn] at hwp
                simpa [hw] using hwp
          · -- mismatch branch
            refine ⟨⟨⟨?_, ?_, ?_, ?_, ?_, ?_⟩, ?_⟩, ?_, ?_, ?_⟩
            · simp [handleMismatch, hf]
            · intro _ ; simp [handleMismatch, hf]
            · intro _ ; rfl
            · intro k hk
              simp only [handleMismatch] at hk
              rw [hf] at hk
              have hk' : f = k := Option.some.inj hk
              subst hk'
              exact ⟨tf, hb1f, htfF, htfM⟩
            · intro k hk
              simp only [handleMismatch] at hk
              have hk' : i = k := Option.some.inj hk
              subst hk'
              exact ⟨{ card with flipped := true }, hb1i, rfl, hcm⟩
            · intro a b ha hb
              simp only [handleMismatch] at ha hb
              rw [hf] at ha
              have ha' : f = a := Option.some.inj ha
              have hb' : i = b := Option.some.inj hb
              subst ha' ; subst hb'
              exact hfi
            · simpa [handleMismatch] using hmc1
            · simp [handleMismatch]
            · rfl
            · exact fun hw => Or.inl hw

theorem fireUnflip_effects (s : GameState) (h : Inv s) :
    Inv (fireUnflip s) ∧
    (fireUnflip s).board.length = s.board.length ∧
    (fireUnflip s).totalPairs = s.totalPairs ∧
    (fireUnflip s).winPending = s.winPending ∧
    (fireUnflip s).pairsFound = s.pairsFound := by
  obtain ⟨⟨hIff, hSF, hUP, hT1, hT2, hNE⟩, hScore⟩ := h
  cases hup : s.unflipPending with
  | false =>
    have hred : fireUnflip s = s := by simp [fireUnflip, hup]
    rw [hred]
    exact ⟨⟨⟨hIff, hSF, hUP, hT1, hT2, hNE⟩, hScore⟩, rfl, rfl, rfl, rfl⟩
  | true =>
    have hred : fireUnflip s =
        resetTurn { s with
          board := setTileFlippedOpt (setTileFlippedOpt s.board s.firstCard false)
            s.secondCard false,
          unflipPending := false } := by
      simp [fireUnflip, hup]
    rw [hred]
    refine ⟨⟨⟨?_, ?_, ?_, ?_, ?_, ?_⟩, ?_⟩, ?_, ?_, ?_, ?_⟩
    · simp [resetTurn]
    · simp [resetTurn]
    · intro hx ; simp [resetTurn] at hx
    · intro k hk ; simp [resetTurn] at hk
    · intro k hk ; simp [resetTurn] at hk
    · intro a b ha _ ; simp [resetTurn] at ha
    · show matchedCount (setTileFlippedOpt (setTileFlippedOpt s.board s.firstCard false)
        s.secondCard false) = 2 * s.pairsFound
      rw [matchedCount_setTileFlippedOpt, matchedCount_setTileFlippedOpt]
      exact hScore
    · simp [resetTurn, setTileFlippedOpt_length]
    · rfl
    · rfl
    · rfl

theorem fireWin_effects (s : GameState) (h : Inv s) :
    Inv (fireWin s) ∧
    (fireWin s).board.length = s.board.length ∧
    (fireWin s).totalPairs = s.totalPairs ∧
    ((fireWin s).winPending = true → s.winPending = true) := by
  obtain ⟨⟨hIff, hSF, hUP, hT1, hT2, hNE⟩, hScore⟩ := h
  cases hwp : s.winPending with
  | false =>
    have hred : fireWin s = s := by simp [fireWin, hwp]
    rw [hred]
    exact ⟨⟨⟨hIff, hSF, hUP, hT1, hT2, hNE⟩, hScore⟩, rfl, rfl,
      fun hx => by rw [hwp] at hx ; exact hx⟩
  | true =>
    have hred : fireWin s = { s with winPending := false, statusDisplay := winText } := by
      simp [fireWin, hwp]
    rw [hred]
    refine ⟨⟨⟨?_, ?_, ?_, ?_, ?_, ?_⟩, ?_⟩, ?_, ?_, ?_⟩
    · exact hIff
    · exact hSF
    · exact hUP
    · intro k hk
      obtain ⟨t, ht, h1, h2⟩ := hT1 k hk
      exact ⟨t, ht, h1, h2⟩
    · intro k hk
      obtain ⟨t, ht, h1, h2⟩ := hT2 k hk
      exact ⟨t, ht, h1, h2⟩
    · exact hNE
    · exact hScore
    · rfl
    · rfl
    · intro hx ; exact Bool.noConfusion hx

theorem setupGameBoard_effects (s : GameState) (gw : Nat → Nat)
    (ps : List (String × String)) :
    Inv (setupGameBoard s gw ps) ∧
    (setupGameBoard s gw ps).totalPairs = s.totalPairs ∧
    (setupGameBoard s gw ps).board.length = 2 * ps.length ∧
    (setupGameBoard s gw ps).winPending = s.winPending ∧
    (setupGameBoard s gw ps).synonymPairs = buildIndex ps := by
  refine ⟨⟨⟨?_, ?_, ?_, ?_, ?_, ?_⟩, ?_⟩, ?_, ?_, ?_, ?_⟩
  · simp [setupGameBoard, resetGameState]
  · simp [setupGameBoard, resetGameState]
  · intro hx ; simp [setupGameBoard, resetGameState] at hx
  · intro k hk ; simp [setupGameBoard, resetGameState] at hk
  · intro k hk ; simp [setupGameBoard, resetGameState] at hk
  · intro a b ha _ ; simp [setupGameBoard, resetGameState] at ha
  · show matchedCount (mkTiles (shuffleArray gw (flattenPairs ps))) = 2 * 0
    rw [matchedCount_mkTiles]
  · rfl
  · show (mkTiles (shuffleArray gw (flattenPairs ps))).length = 2 * ps.length
    rw [mkTiles_length, shuffleArray_length, flattenPairs_length]
  · rfl
  · rfl

theorem resetGame_effects (s : GameState) (j : JsonData) (g : Nat → Nat → Nat)
    (gw : Nat → Nat) (h : Inv s) :
    Inv (resetGame s j g gw) ∧
    (resetGame s j g gw).totalPairs = s.totalPairs ∧
    ((resetGame s j g gw).winPending = true → s.winPending = true) := by
  unfold resetGame initFlow
  by_cases hz : prepareGameData g s.totalPairs j = []
  · simp only [hz, if_pos rfl]
    exact ⟨h, rfl, fun hx => hx⟩
  · rw [if_neg hz]
    obtain ⟨h1, h2, _, h4, _⟩ := setupGameBoard_effects s gw (prepareGameData g s.totalPairs j)
    exact ⟨h1, h2, fun hx => by rw [← h4] ; exact hx⟩

theorem blankState_inv (tp : Nat) : Inv (blankState tp) := by
  refine ⟨⟨?_, ?_, ?_, ?_, ?_, ?_⟩, ?_⟩
  · simp [blankState]
  · simp [blankState]
  · intro hx ; simp [blankState] at hx
  · intro k hk ; simp [blankState] at hk
  · intro k hk ; simp [blankState] at hk
  · intro a b ha _ ; simp [blankState] at ha
  · rfl

theorem initGame_effects (tp : Nat) (j : JsonData) (g : Nat → Nat → Nat) (gw : Nat → Nat) :
    Inv (initGame tp j g gw) ∧
    (initGame tp j g gw).totalPairs = tp ∧
    (initGame tp j g gw).board.length = 2 * (prepareGameData g tp j).length ∧
    (initGame tp j g gw).winPending = false := by
  unfold initGame resetGame initFlow
  have hbt : (blankState tp).totalPairs = tp := rfl
  by_cases hz : prepareGameData g (blankState tp).totalPairs j = []
  · simp only [hz, if_pos rfl]
    rw [hbt] at hz
    refine ⟨blankState_inv tp, rfl, ?_, rfl⟩
    rw [hz]
    rfl
  · rw [if_neg hz]
    obtain ⟨h1, h2, h3, h4, _⟩ :=
      setupGameBoard_effects (blankState tp) gw (prepareGameData g (blankState tp).totalPairs j)
    exact ⟨h1, h2, h3, h4⟩

theorem step_effects (s : GameState) (e : Event) (h : Inv s) :
    Inv (step s e) ∧ (step s e).totalPairs = s.totalPairs := by
  cases e with
  | click i => exact ⟨(handleCardClick_effects s i h).1, (handleCardClick_effects s i h).2.2.1⟩
  | unflipFire => exact ⟨(fireUnflip_effects s h).1, (fireUnflip_effects s h).2.2.1⟩
  | winFire => exact ⟨(fireWin_effects s h).1, (fireWin_effects s h).2.2.1⟩
  | reset j g gw => exact ⟨(resetGame_effects s j g gw h).1, (resetGame_effects s j g gw h).2.1⟩

theorem reachable_inv (tp : Nat) (s : GameState) (h : Reachable tp s) :
    Inv s ∧ s.totalPairs = tp := by
  induction h with
  | init j g gw =>
    obtain ⟨h1, h2, _, _⟩ := initGame_effects tp j g gw
    exact ⟨h1, h2⟩
  | step s e _ ih =>
    obtain ⟨h1, h2⟩ := ih
    obtain ⟨h3, h4⟩ := step_effects s e h1
    exact ⟨h3, by rw [h4, h2]⟩

/-- Along one session (no resets) of a board holding `P` pairs with `P`
strictly below the configured target, the invariant extends with a fixed
board size and a never-scheduled win announcement. -/
theorem session_inv (tp P : Nat) (s0 s : GameState) (hP : P < tp)
    (h0 : Inv s0) (hl0 : s0.board.length = 2 * P) (ht0 : s0.totalPairs = tp)
    (hw0 : s0.winPending = false) (hs : SessionReach s0 s) :
    Inv s ∧ s.board.length = 2 * P ∧ s.totalPairs = tp ∧ s.winPending = false := by
  induction hs with
  | refl => exact ⟨h0, hl0, ht0, hw0⟩
  | step s' e _ he ih =>
    obtain ⟨h1, h2, h3, h4⟩ := ih
    cases e with
    | click i =>
      simp only [step]
      obtain ⟨k1, k2, k3, k4⟩ := handleCardClick_effects s' i h1
      refine ⟨k1, by rw [k2, h2], by rw [k3, h3], ?_⟩
      cases hwp : (handleCardClick s' i).winPending with
      | false => rfl
      | true =>
        rcases k4 hwp with hx | hx
        · rw [h4] at hx ; exact Bool.noConfusion hx
        · obtain ⟨_, hsc⟩ := k1
          have hb : matchedCount (handleCardClick s' i).board ≤
              (handleCardClick s' i).board.length :=
            matchedCount_le_length _
          rw [hsc, k2, h2, hx, h3] at hb
          exact absurd hb (by omega)
    | unflipFire =>
      simp only [step]
      obtain ⟨k1, k2, k3, k4, _⟩ := fireUnflip_effects s' h1
      exact ⟨k1, by rw [k2, h2], by rw [k3, h3], by rw [k4, h4]⟩
    | winFire =>
      simp only [step]
      obtain ⟨k1, k2, k3, k4⟩ := fireWin_effects s' h1
      refine ⟨k1, by rw [k2, h2], by rw [k3, h3], ?_⟩
      cases hwp : (fireWin s').winPending with
      | false => rfl
      | true =>
        have hx := k4 hwp
        rw [h4] at hx
        exact Bool.noConfusion hx
    | reset j g gw => exact absurd he (by simp [sessionEvent])

/-! ## MatchIndex lemmas -/

theorem beq_false_of_ne {a b : String} (h : ¬(a = b)) : (a == b) = false := by
  cases hx : a == b with
  | false => rfl
  | true => exact absurd (by simpa using hx) h

theorem buildIndex_eq_buildAux (ps : List (String × String)) :
    buildIndex ps = buildAux [] ps := rfl

theorem buildAux_cons (m : List (String × String)) (p : String × String)
    (t : List (String × String)) :
    buildAux m (p :: t) = buildAux ((p.2, p.1) :: (p.1, p.2) :: m) t := rfl

theorem lookup_buildAux_not_word (t : List (String × String)) (m : List (String × String))
    (k : String) (hk : ∀ p ∈ t, k ≠ p.1 ∧ k ≠ p.2) :
    (buildAux m t).lookup k = m.lookup k := by
  induction t generalizing m with
  | nil => rfl
  | cons p t ih =>
    rw [buildAux_cons, ih _ (fun q hq => hk q (List.mem_cons_of_mem p hq))]
    obtain ⟨h1, h2⟩ := hk p (List.mem_cons_self p t)
    rw [List.lookup_cons, List.lookup_cons]
    simp [beq_false_of_ne h1, beq_false_of_ne h2]

theorem lookup_buildAux_mem (ps : List (String × String)) (hd : ps.Pairwise PairDisjoint)
    (m : List (String × String)) (a b : String) (hab : (a, b) ∈ ps) :
    (buildAux m ps).lookup a = some b ∧ (buildAux m ps).lookup b = some a := by
  induction ps generalizing m with
  | nil => cases hab
  | cons p t ih =>
    rw [List.pairwise_cons] at hd
    obtain ⟨hdp, hdt⟩ := hd
    rcases List.mem_cons.mp hab with heq | hmem
    · subst heq
      have hna : ∀ q ∈ t, a ≠ q.1 ∧ a ≠ q.2 := by
        intro q hq
        obtain ⟨x1, x2, _, _⟩ := hdp q hq
        exact ⟨x1, x2⟩
      have hnb : ∀ q ∈ t, b ≠ q.1 ∧ b ≠ q.2 := by
        intro q hq
        obtain ⟨_, _, x3, x4⟩ := hdp q hq
        exact ⟨x3, x4⟩
      rw [buildAux_cons]
      constructor
      · rw [lookup_buildAux_not_word t _ a hna]
        by_cases hab' : a = b
        · subst hab'
          simp [List.lookup_cons]
        · have hba : ¬(b = a) := fun hh => hab' hh.symm
          simp [List.lookup_cons, beq_false_of_ne hab', beq_false_of_ne hba]
      · rw [lookup_buildAux_not_word t _ b hnb]
        simp [List.lookup_cons]
    · rw [buildAux_cons]
      exact ih hdt _ hmem

theorem mem_of_lookup_buildAux (ps : List (String × String)) (m : List (String × String))
    (k v : String) (h : (buildAux m ps).lookup k = some v) :
    (k, v) ∈ ps ∨ (v, k) ∈ ps ∨ m.lookup k = some v := by
  induction ps generalizing m with
  | nil => exact Or.inr (Or.inr h)
  | cons p t ih =>
    rw [buildAux_cons] at h
    rcases ih _ h with h1 | h1 | h1
    · exact Or.inl (List.mem_cons_of_mem _ h1)
    · exact Or.inr (Or.inl (List.mem_cons_of_mem _ h1))
    · rw [List.lookup_cons, List.lookup_cons] at h1
      by_cases h2 : k = p.2
      · have hv : p.1 = v := by
          rw [h2] at h1
          simpa using h1
        refine Or.inr (Or.inl ?_)
        have : (v, k) = p := by
          rw [← hv, h2]
        rw [this]
        exact List.mem_cons_self p t
      · by_cases h3 : k = p.1
        · have hv : p.2 = v := by
          -- the first branch is skipped, the second taken
            rw [h3] at h1
            have hne : ¬((p.1 == p.2) = true) := by
              simp
              intro hx
              rw [h3] at h2
              exact h2 hx
            simp [hne] at h1
            exact h1
          refine Or.inl ?_
          have : (k, v) = p := by
            rw [← hv, h3]
          rw [this]
          exact List.mem_cons_self p t
        · have hk2 : ¬((k == p.2) = true) := by simp [h2]
          have hk1 : ¬((k == p.1) = true) := by simp [h3]
          simp [hk2, hk1] at h1
          exact Or.inr (Or.inr h1)

/-! ## Data-preparation lemmas -/

theorem processEntries_length_le (g : Nat → Nat → Nat) (i : Nat) (l : List (List String)) :
    (processEntries g i l).length ≤ l.length := by
  induction l generalizing i with
  | nil => simp [processEntries]
  | cons e rest ih =>
    simp only [processEntries]
    split
    · simpa using Nat.succ_le_succ (ih (i + 1))
    · exact Nat.le_succ_of_le (ih (i + 1))

theorem entryToPair_two (g : Nat → Nat) (e : List String) (h : 2 ≤ e.length) :
    ∃ a b, entryToPair g e = [a, b] := by
  by_cases h2 : e.length = 2
  · obtain ⟨a, b, hab⟩ := List.length_eq_two.mp h2
    refine ⟨a, b, ?_⟩
    rw [entryToPair, if_pos h2, hab]
  · have h3 : 2 < e.length := by omega
    have hl : ((shuffleArray g e).take 2).length = 2 := by
      rw [List.length_take, shuffleArray_length]
      omega
    obtain ⟨a, b, hab⟩ := List.length_eq_two.mp hl
    refine ⟨a, b, ?_⟩
    rw [entryToPair, if_neg h2, if_pos h3, hab]

theorem processEntries_length_valid (g : Nat → Nat → Nat) (i : Nat) (l : List (List String))
    (hv : ∀ e ∈ l, 2 ≤ e.length) :
    (processEntries g i l).length = l.length := by
  induction l generalizing i with
  | nil => simp [processEntries]
  | cons e rest ih =>
    obtain ⟨a, b, hab⟩ := entryToPair_two (g (i + 1)) e (hv e (List.mem_cons_self e rest))
    simp only [processEntries, hab]
    rw [List.length_cons, List.length_cons,
      ih (i + 1) (fun e' he' => hv e' (List.mem_cons_of_mem e he'))]

theorem entryToPair_mem {g : Nat → Nat} {e : List String} {a b : String}
    (hE : entryToPair g e = [a, b]) : a ∈ e ∧ b ∈ e := by
  unfold entryToPair at hE
  split at hE
  · rw [hE] ; simp
  · split at hE
    · have ha : a ∈ (shuffleArray g e).take 2 := by rw [hE] ; simp
      have hb : b ∈ (shuffleArray g e).take 2 := by rw [hE] ; simp
      have hsub := List.take_subset 2 (shuffleArray g e)
      have hperm := shuffleArray_perm g e
      exact ⟨hperm.mem_iff.mp (hsub ha), hperm.mem_iff.mp (hsub hb)⟩
    · exact List.noConfusion hE

theorem entryToPair_ne {g : Nat → Nat} {e : List String} {a b : String}
    (hnd : e.Nodup) (hE : entryToPair g e = [a, b]) : a ≠ b := by
  unfold entryToPair at hE
  split at hE
  · rw [hE] at hnd
    simpa using (List.nodup_cons.mp hnd).1
  · split at hE
    · have hshuf : (shuffleArray g e).Nodup := (shuffleArray_perm g e).nodup_iff.mpr hnd
      have htake : ((shuffleArray g e).take 2).Nodup :=
        hshuf.sublist (List.take_sublist 2 _)
      rw [hE] at htake
      simpa using (List.nodup_cons.mp htake).1
    · exact List.noConfusion hE

theorem mem_processEntries {g : Nat → Nat → Nat} {i : Nat} {l : List (List String)}
    {p : String × String} (h : p ∈ processEntries g i l) :
    ∃ e ∈ l, p.1 ∈ e ∧ p.2 ∈ e := by
  induction l generalizing i with
  | nil => simp [processEntries] at h
  | cons e rest ih =>
    simp only [processEntries] at h
    split at h
    · next a b heq =>
      rcases List.mem_cons.mp h with hpe | hpt
      · subst hpe
        obtain ⟨ha, hb⟩ := entryToPair_mem heq
        exact ⟨e, List.mem_cons_self e rest, ha, hb⟩
      · obtain ⟨e', he', hmem⟩ := ih hpt
        exact ⟨e', List.mem_cons_of_mem e he', hmem⟩
    · obtain ⟨e', he', hmem⟩ := ih h
      exact ⟨e', List.mem_cons_of_mem e he', hmem⟩

theorem processEntries_nodup (g : Nat → Nat → Nat) (i : Nat) (l : List (List String))
    (hnd : l.flatten.Nodup) :
    (∀ p ∈ processEntries g i l, p.1 ≠ p.2) ∧ (processEntries g i l).Nodup := by
  induction l generalizing i with
  | nil => simp [processEntries]
  | cons e rest ih =>
    rw [List.flatten_cons] at hnd
    have hne : e.Nodup := hnd.of_append_left
    have hnr : rest.flatten.Nodup := hnd.of_append_right
    have hdisj : List.Disjoint e rest.flatten := List.disjoint_of_nodup_append hnd
    obtain ⟨ih1, ih2⟩ := ih hnr (i := i + 1)
    simp only [processEntries]
    split
    · next a b heq =>
      constructor
      · intro p hp
        rcases List.mem_cons.mp hp with hpe | hpt
        · subst hpe
          exact entryToPair_ne hne heq
        · exact ih1 p hpt
      · rw [List.nodup_cons]
        refine ⟨?_, ih2⟩
        intro hmem
        obtain ⟨e', he', ha, _⟩ := mem_processEntries hmem
        exact hdisj (entryToPair_mem heq).1 (List.mem_flatten_of_mem he' ha)
    · exact ⟨ih1, ih2⟩

/-! ## The claims -/

/-- C1 (amended): provided no word occurs in two different pairs of the
SelectedPairSet, the MatchIndex built by `prepareGameData` (and rebuilt by
`setupGameBoard` from the same pairs — third conjunct) is an involution:
`MatchIndex[a] = b` and `MatchIndex[b] = a` for every selected pair `(a, b)`,
and `MatchIndex[MatchIndex[k]] = k` for every key `k` present. The proviso is
forced by `c1_counterexample`: the source's later `synonymPairs[...]`
assignments overwrite earlier ones when pairs share a word. -/
theorem c1_match_index_involution (g : Nat → Nat → Nat) (tp : Nat) (j : JsonData)
    (hdisj : (prepareGameData g tp j).Pairwise PairDisjoint) :
    (∀ a b, (a, b) ∈ prepareGameData g tp j →
      (buildIndex (prepareGameData g tp j)).lookup a = some b ∧
      (buildIndex (prepareGameData g tp j)).lookup b = some a) ∧
    (∀ k v, (buildIndex (prepareGameData g tp j)).lookup k = some v →
      (buildIndex (prepareGameData g tp j)).lookup v = some k) ∧
    (∀ (s : GameState) (gw : Nat → Nat),
      (setupGameBoard s gw (prepareGameData g tp j)).synonymPairs =
        buildIndex (prepareGameData g tp j)) := by
  refine ⟨?_, ?_, ?_⟩
  · intro a b hab
    rw [buildIndex_eq_buildAux]
    exact lookup_buildAux_mem _ hdisj [] a b hab
  · intro k v hkv
    rw [buildIndex_eq_buildAux] at hkv ⊢
    rcases mem_of_lookup_buildAux _ [] k v hkv with h1 | h1 | h1
    · exact (lookup_buildAux_mem _ hdisj [] k v h1).2
    · exact (lookup_buildAux_mem _ hdisj [] v k h1).1
    · exact Option.noConfusion h1
  · intro s gw
    rfl

/-- C1 witness: a two-pair dataset with four distinct words. -/
theorem c1_match_index_involution_witness :
    (prepareGameData idDraws 10 jPairsTwo).Pairwise PairDisjoint ∧
    (buildIndex (prepareGameData idDraws 10 jPairsTwo)).lookup "a" = some "b" ∧
    (buildIndex (prepareGameData idDraws 10 jPairsTwo)).lookup "b" = some "a" := by
  have hd : (prepareGameData idDraws 10 jPairsTwo).Pairwise PairDisjoint := by decide
  have hm : ("a", "b") ∈ prepareGameData idDraws 10 jPairsTwo := by decide
  obtain ⟨h1, h2⟩ := (c1_match_index_involution idDraws 10 jPairsTwo hd).1 "a" "b" hm
  exact ⟨hd, h1, h2⟩

/-- C1 counterexample: with pairs `(a,b)` and `(b,c)` sharing the word `b`,
the built index maps `a ↦ b ↦ c`, so `MatchIndex[MatchIndex[a]] ≠ a` and
`MatchIndex[b] ≠ a` although `(a,b)` is in the SelectedPairSet. -/
theorem c1_match_index_involution_counterexample :
    ("a", "b") ∈ prepareGameData idDraws 10 jSharedWord ∧
    (buildIndex (prepareGameData idDraws 10 jSharedWord)).lookup "a" = some "b" ∧
    (buildIndex (prepareGameData idDraws 10 jSharedWord)).lookup "b" = some "c" ∧
    some "c" ≠ some "a" := by decide

/-- C2 (code bug evidence): win the single pair of a one-pair game — the win
announcement is scheduled — then reset before the 800 ms delay elapses. The
reset leaves the announcement pending (`resetGameState` stores and clears only
`unflipTimeoutId` / `resetColorTimeoutId`; the win `setTimeout` handle is
never stored), and when it fires it overwrites the new game's status display
with the old game's win message. -/
theorem c2_win_timer_not_cancelled :
    winResetMid.winPending = true ∧
    winResetMid.statusDisplay = statusText 0 1 ∧
    (step winResetMid .winFire).statusDisplay = winText ∧
    step winResetMid .winFire ≠ winResetMid := by decide

/-- C3: in any reachable state, a tile-selection event on a tile while the
board is locked, or on an already-flipped or already-matched tile, leaves the
whole engine state (turn state and every tile) unchanged. -/
theorem c3_guarded_click_is_noop (tp : Nat) (s : GameState) (i : Nat)
    (_hr : Reachable tp s)
    (hguard : s.lockBoard = true ∨
      ∃ t, s.board[i]? = some t ∧ (t.flipped = true ∨ t.matched = true)) :
    step s (.click i) = s := by
  show handleCardClick s i = s
  cases hbi : s.board[i]? with
  | none => simp [handleCardClick, hbi]
  | some card =>
    have hcond : (s.lockBoard || card.flipped || card.matched) = true := by
      rcases hguard with hl | ⟨t, ht, hfm⟩
      · simp [hl]
      · rw [hbi] at ht
        have hct : card = t := Option.some.inj ht
        subst hct
        rcases hfm with h1 | h1 <;> simp [h1]
    simp only [handleCardClick, hbi]
    rw [if_pos hcond]

/-- C3 witness: clicking the already-flipped card 0 again is a no-op. -/
theorem c3_guarded_click_is_noop_witness :
    step flippedOneState (.click 0) = flippedOneState :=
  c3_guarded_click_is_noop 10 flippedOneState 0
    (Reachable.step _ (.click 0) (Reachable.init jPairsTwo idDraws idDraw))
    (Or.inr ⟨⟨"a", true, false⟩, by decide, Or.inl rfl⟩)

/-- C4: in every reachable state the number of selected tiles is 0, 1 or 2 —
never more — and the board is locked exactly when 2 tiles are selected. -/
theorem c4_turn_state_invariant (tp : Nat) (s : GameState) (hr : Reachable tp s) :
    numSelected s ≤ 2 ∧ (s.lockBoard = true ↔ numSelected s = 2) := by
  obtain ⟨⟨⟨hIff, hSF, _⟩, _⟩, _⟩ := reachable_inv tp s hr
  constructor
  · unfold numSelected
    split <;> split <;> omega
  · rw [hIff]
    unfold numSelected
    cases hf : s.firstCard.isSome <;> cases hs2 : s.secondCard.isSome <;> simp

/-- C4 witness: the freshly initialised game has 0 selected and is unlocked. -/
theorem c4_turn_state_invariant_witness :
    numSelected (initGame 10 jPairsTwo idDraws idDraw) ≤ 2 ∧
    ((initGame 10 jPairsTwo idDraws idDraw).lockBoard = true ↔
      numSelected (initGame 10 jPairsTwo idDraws idDraw) = 2) :=
  c4_turn_state_invariant 10 _ (Reachable.init jPairsTwo idDraws idDraw)

/-- C5 (amended): the SelectedPairSet never holds more than
`min(targetPairCount, entryCount)` pairs, and holds exactly that many when
every extracted entry can yield a pair (2 or more words — always true for the
pairs shape). The "exactly / uses all valid entries" half of the original
claim is refuted by `c5_pair_count_counterexample`: the source slices to
`min(totalPairs, allEntries.length)` *before* filtering invalid entries. -/
theorem c5_pair_count (g : Nat → Nat → Nat) (tp : Nat) (j : JsonData)
    (es : List (List String)) (hes : extractEntries j = some es) :
    (prepareGameData g tp j).length ≤ min tp es.length ∧
    ((∀ e ∈ es, 2 ≤ e.length) →
      (prepareGameData g tp j).length = min tp es.length) := by
  have hred : prepareGameData g tp j =
      processEntries g 0 ((shuffleArray (g 0) es).take
        (min tp (shuffleArray (g 0) es).length)) := by
    unfold prepareGameData
    rw [hes]
  have hslen : (shuffleArray (g 0) es).length = es.length := shuffleArray_length _ _
  have htlen : ((shuffleArray (g 0) es).take
      (min tp (shuffleArray (g 0) es).length)).length = min tp es.length := by
    rw [List.length_take, hslen]
    omega
  constructor
  · rw [hred]
    exact le_trans (processEntries_length_le ..) (le_of_eq htlen)
  · intro hv
    have hv' : ∀ e ∈ (shuffleArray (g 0) es).take
        (min tp (shuffleArray (g 0) es).length), 2 ≤ e.length := by
      intro e he
      exact hv e ((shuffleArray_perm (g 0) es).mem_iff.mp (List.take_subset _ _ he))
    rw [hred, processEntries_length_valid g 0 _ hv', htlen]

/-- C5 witness: 3 valid entries, target 2, result has exactly `min 2 3 = 2`
pairs. -/
theorem c5_pair_count_witness :
    (prepareGameData idDraws 2 jPairsThree).length = min 2 3 :=
  (c5_pair_count idDraws 2 jPairsThree [["a", "b"], ["c", "d"], ["e", "f"]] rfl).2
    (by decide)

/-- C5 counterexample: the alternatives dataset `[["a"], ["b","c"]]` has one
valid entry; with target 1 the slice keeps only the invalid entry `["a"]`, so
the result is empty — not `min(1, availableEntries) = 1` pairs, and not "all
valid entries" either. -/
theorem c5_pair_count_counterexample :
    (prepareGameData idDraws 1 jShortAlt).length = 0 ∧
    min 1 (availableEntries jShortAlt) = 1 ∧
    min 1 (validEntryCount jShortAlt) = 1 ∧
    (prepareGameData idDraws 1 jShortAlt).length ≠ min 1 (availableEntries jShortAlt) ∧
    (prepareGameData idDraws 1 jShortAlt).length ≠ min 1 (validEntryCount jShortAlt) := by
  decide

/-- C6 (amended): entries that cannot yield two words are discarded (third
conjunct), and *provided all words of the dataset's entries are pairwise
distinct*, every selected pair has two distinct words and no pair appears
twice. The proviso is forced by `c6_pair_distinctness_counterexample`: the
source never checks distinctness. -/
theorem c6_pair_distinctness (g : Nat → Nat → Nat) (tp : Nat) (j : JsonData)
    (es : List (List String)) (hes : extractEntries j = some es)
    (hnd : es.flatten.Nodup) :
    (∀ p ∈ prepareGameData g tp j, p.1 ≠ p.2) ∧
    (prepareGameData g tp j).Nodup ∧
    (∀ (g' : Nat → Nat) (e : List String), e.length ≤ 1 → entryToPair g' e = []) := by
  have hred : prepareGameData g tp j =
      processEntries g 0 ((shuffleArray (g 0) es).take
        (min tp (shuffleArray (g 0) es).length)) := by
    unfold prepareGameData
    rw [hes]
  have hfl : (shuffleArray (g 0) es).flatten.Nodup :=
    ((shuffleArray_perm (g 0) es).flatten.nodup_iff).mpr hnd
  have htake : ((shuffleArray (g 0) es).take
      (min tp (shuffleArray (g 0) es).length)).flatten.Nodup := by
    have heq : (((shuffleArray (g 0) es).take (min tp (shuffleArray (g 0) es).length)) ++
        ((shuffleArray (g 0) es).drop (min tp (shuffleArray (g 0) es).length))).flatten =
        (shuffleArray (g 0) es).flatten := by
      rw [List.take_append_drop]
    rw [List.flatten_append] at heq
    rw [← heq] at hfl
    exact hfl.of_append_left
  obtain ⟨hA, hB⟩ := processEntries_nodup g 0 _ htake
  refine ⟨by rw [hred] ; exact hA, by rw [hred] ; exact hB, ?_⟩
  intro g' e he
  unfold entryToPair
  rw [if_neg (by omega), if_neg (by omega)]

/-- C6 witness: four distinct words. -/
theorem c6_pair_distinctness_witness :
    (∀ p ∈ prepareGameData idDraws 10 jPairsTwo, p.1 ≠ p.2) ∧
    (prepareGameData idDraws 10 jPairsTwo).Nodup :=
  ⟨(c6_pair_distinctness idDraws 10 jPairsTwo [["a", "b"], ["c", "d"]] rfl (by decide)).1,
   (c6_pair_distinctness idDraws 10 jPairsTwo [["a", "b"], ["c", "d"]] rfl (by decide)).2.1⟩

/-- C6 counterexample: `{pairs: [{term1:"a",term2:"a"}, {term1:"a",term2:"a"}]}`
produces the pair `("a","a")` — equal words — twice, and the degenerate
entries are not discarded. -/
theorem c6_pair_distinctness_counterexample :
    prepareGameData idDraws 10 jDupPair = [("a", "a"), ("a", "a")] ∧
    ¬(∀ p ∈ prepareGameData idDraws 10 jDupPair, p.1 ≠ p.2) ∧
    ¬(prepareGameData idDraws 10 jDupPair).Nodup := by decide

/-- C7: the Fisher–Yates shuffle (`shuffleArray`, the loop from index
`length-1` down to `1` drawing `j ∈ [0, i]` and swapping) returns a list of
the same length that is a permutation — the same multiset — of its input, for
every input list, every draw sequence, and every element type (including
empty, singleton and duplicate-containing lists). -/
theorem c7_shuffle_is_permutation {α : Type} (g : Nat → Nat) (l : List α) :
    (shuffleArray g l).length = l.length ∧ (shuffleArray g l).Perm l :=
  ⟨shuffleArray_length g l, shuffleArray_perm g l⟩

/-- C8 (amended): on a dataset matching neither shape, `prepareGameData`
returns normally with an empty pair set (no partial result); `init` then
aborts with the generic user-facing load-failure alert and performs no
board-build, leaving the engine state untouched. (There is no distinct
`DataFormatError`: see `c8_unknown_format_counterexample`.) -/
theorem c8_unknown_format (g : Nat → Nat → Nat) (gw : Nat → Nat) (s : GameState)
    (j : JsonData) (h : extractEntries j = none) :
    prepareGameData g s.totalPairs j = [] ∧
    initFlow s j g gw = .loadFailure errorText ∧
    resetGame s j g gw = s := by
  have hp : prepareGameData g s.totalPairs j = [] := by
    unfold prepareGameData
    rw [h]
  have hi : initFlow s j g gw = .loadFailure errorText := by
    unfold initFlow
    rw [hp]
    simp
  refine ⟨hp, hi, ?_⟩
  unfold resetGame
  rw [hi]

/-- C8 witness: the malformed `{notValid: …}` dataset (neither field). -/
theorem c8_unknown_format_witness :
    prepareGameData idDraws (blankState 10).totalPairs jMalformed = [] ∧
    initFlow (blankState 10) jMalformed idDraws idDraw = .loadFailure errorText ∧
    resetGame (blankState 10) jMalformed idDraws idDraw = blankState 10 :=
  c8_unknown_format idDraws idDraw (blankState 10) jMalformed rfl

/-- C8 counterexample to "prepare fails with a DataFormatError (distinct
user-facing load failure)": the source returns the ordinary value `[]` (never
an error value), and the resulting outcome is byte-identical to that of a
well-shaped dataset with zero entries, so the failure is not distinct. -/
theorem c8_unknown_format_counterexample :
    specPrepareResult idDraws 10 jMalformed = .dataFormatError ∧
    codePrepareResult idDraws 10 jMalformed = .ok [] ∧
    PrepResult.ok [] ≠ PrepResult.dataFormatError ∧
    initFlow (blankState 10) jMalformed idDraws idDraw =
      initFlow (blankState 10) jEmptyPairs idDraws idDraw := by decide

/-- C9: match evaluation is total (the embedding of `checkForMatch` is a
total function) and a word absent from the MatchIndex evaluates as a mismatch
(`undefined === word2` is false), mutating no tile and leaving the score
unchanged — never a fatal error. -/
theorem c9_lookup_miss_is_mismatch (s : GameState) (f i : Nat)
    (h : s.synonymPairs.lookup (tileWord s f) = none) :
    checkForMatch s f i = handleMismatch s ∧
    (checkForMatch s f i).board = s.board ∧
    (checkForMatch s f i).pairsFound = s.pairsFound := by
  have hred : checkForMatch s f i = handleMismatch s := by
    unfold checkForMatch
    rw [h]
    simp
  exact ⟨hred, by rw [hred] ; rfl, by rw [hred] ; rfl⟩

/-- C9 witness: evaluation against an empty MatchIndex. -/
theorem c9_lookup_miss_is_mismatch_witness :
    (blankState 1).synonymPairs.lookup (tileWord (blankState 1) 0) = none ∧
    checkForMatch (blankState 1) 0 1 = handleMismatch (blankState 1) :=
  ⟨rfl, (c9_lookup_miss_is_mismatch (blankState 1) 0 1 rfl).1⟩

/-- C10: the win check compares `pairsFound` with the fixed `totalPairs`, so
a game prepared with fewer pairs than `totalPairs` can never reach the win
condition in any session state, and the win announcement is never scheduled. -/
theorem c10_short_board_unwinnable (tp : Nat) (j : JsonData) (g : Nat → Nat → Nat)
    (gw : Nat → Nat) (s : GameState)
    (hlt : (prepareGameData g tp j).length < tp)
    (hs : SessionReach (initGame tp j g gw) s) :
    s.pairsFound < tp ∧ s.winPending = false := by
  obtain ⟨h1, h2, h3, h4⟩ := initGame_effects tp j g gw
  obtain ⟨⟨_, hsc⟩, hlen, _, hwp⟩ :=
    session_inv tp (prepareGameData g tp j).length _ s hlt h1 h3 h2 h4 hs
  refine ⟨?_, hwp⟩
  have hb := matchedCount_le_length s.board
  rw [hsc, hlen] at hb
  omega

/-- C10 witness: one pair, target 2, the fresh session state. -/
theorem c10_short_board_unwinnable_witness :
    (initGame 2 jPairsAB idDraws idDraw).pairsFound < 2 ∧
    (initGame 2 jPairsAB idDraws idDraw).winPending = false :=
  c10_short_board_unwinnable 2 jPairsAB idDraws idDraw _ (by decide) SessionReach.refl

end MemoryEngine
